import Mathlib

set_option maxRecDepth 2000

/-!
Shallow embedding of the WaifuDiffusion tagger core (`app.py`): label-table
parsing, the MCut adaptive threshold, the model-session cache (`load_model`),
image preparation (`prepare_image`) and the post-inference processing of
`predict`.  Probabilities and pixel channels are modelled as rationals;
fallible Python operations (list indexing, `numpy.argmax` on an empty array,
network fetch, CSV parse, session construction) are modelled with `Except` /
`Option`.
-/

namespace Tagger

instance {ε α : Type} [DecidableEq ε] [DecidableEq α] : DecidableEq (Except ε α) :=
  fun x y =>
    match x, y with
    | .ok a, .ok b =>
      if h : a = b then .isTrue (h ▸ rfl)
      else .isFalse (fun hc => h (Except.ok.inj hc))
    | .error a, .error b =>
      if h : a = b then .isTrue (h ▸ rfl)
      else .isFalse (fun hc => h (Except.error.inj hc))
    | .ok _, .error _ => .isFalse (fun hc => Except.noConfusion hc)
    | .error _, .ok _ => .isFalse (fun hc => Except.noConfusion hc)

/-- Python exceptions that the modelled code paths can raise. -/
inductive PyErr where
  | indexError
  | valueError
  | fetchError
  | parseError
  | sessionError
  deriving DecidableEq

/-- The `kaomojis` exception list from `app.py`: raw tag names on this list
keep their underscores. -/
def kaomojis : List String :=
  ["0_0", "(o)_(o)", "+_+", "+_-", "._.", "<o>_<o>", "<|>_<|>", "=_=",
   ">_<", "3_3", "6_9", ">_o", "@_@", "^_^", "o_o", "u_u", "x_x", "|_|", "||_||"]

/-- Python `name.replace("_", " ")`: with a one-character pattern this is a
character-wise map. -/
def replaceUnderscores (s : String) : String :=
  String.mk (s.data.map (fun c => if c = '_' then ' ' else c))

/-- Embedding of `load_labels(dataframe)`.  A dataframe row is a
`(name, category)` pair.  Names have `_` replaced by a space unless the raw
name is a kaomoji; index groups collect the row positions whose category code
is 9 (rating), 0 (general) and 4 (character), in row order (numpy `where`). -/
def load_labels (rows : List (String × Int)) :
    List String × List Nat × List Nat × List Nat :=
  let tag_names := rows.map (fun r => if r.1 ∈ kaomojis then r.1 else replaceUnderscores r.1)
  let rating_indexes :=
    (List.range rows.length).filter (fun i => (rows.getD i ("", 0)).2 = 9)
  let general_indexes :=
    (List.range rows.length).filter (fun i => (rows.getD i ("", 0)).2 = 0)
  let character_indexes :=
    (List.range rows.length).filter (fun i => (rows.getD i ("", 0)).2 = 4)
  (tag_names, rating_indexes, general_indexes, character_indexes)

/-- Descending sort of a probability vector, modelling
`probs[probs.argsort()[::-1]]` (only the sorted values are used downstream). -/
def sortDesc (probs : List ℚ) : List ℚ :=
  List.insertionSort (fun a b => b ≤ a) probs

/-- The consecutive-difference vector `sorted_probs[:-1] - sorted_probs[1:]`
of `mcut_threshold`. -/
def mcutDifs (probs : List ℚ) : List ℚ :=
  List.zipWith (fun a b => a - b) (sortDesc probs) (sortDesc probs).tail

/-- Index of the first maximum of a list, modelling `numpy.argmax`
(which raises `ValueError` on an empty array, hence `Option`). -/
def argmaxFirst : List ℚ → Option Nat
  | [] => none
  | x :: xs =>
    match argmaxFirst xs with
    | none => some 0
    | some k => if x < xs.getD k 0 then some (k + 1) else some 0

/-- Embedding of `mcut_threshold(probs)`: sort descending, take consecutive
differences, locate their first argmax `t`, return the midpoint of
`sorted[t]` and `sorted[t+1]`.  Returns `none` exactly when `argmax` would
raise (fewer than two probabilities). -/
def mcut_threshold (probs : List ℚ) : Option ℚ :=
  match argmaxFirst (mcutDifs probs) with
  | none => none
  | some t => some (((sortDesc probs).getD t 0 + (sortDesc probs).getD (t + 1) 0) / 2)

/-- Python list indexing `labels[i]`, raising `IndexError` out of range. -/
def pyIndex (labels : List (String × ℚ)) (i : Nat) : Except PyErr (String × ℚ) :=
  match labels.get? i with
  | some x => .ok x
  | none => .error .indexError

/-- The list comprehension `[labels[i] for i in indexes]`: stops at the first
out-of-range index with an `IndexError`. -/
def mapPyIndex (labels : List (String × ℚ)) : List Nat → Except PyErr (List (String × ℚ))
  | [] => .ok []
  | i :: is =>
    match pyIndex labels i with
    | .error e => .error e
    | .ok x =>
      match mapPyIndex labels is with
      | .error e => .error e
      | .ok xs => .ok (x :: xs)

/-- One step of Python `dict` construction: an existing key keeps its position
but takes the new value; a new key is appended. -/
def dictInsert (d : List (String × ℚ)) (kv : String × ℚ) : List (String × ℚ) :=
  if d.any (fun p => p.1 = kv.1) then
    d.map (fun p => if p.1 = kv.1 then (p.1, kv.2) else p)
  else d ++ [kv]

/-- Python `dict(pairs)`: keys in first-occurrence order, values from the last
occurrence. -/
def dictOfList (l : List (String × ℚ)) : List (String × ℚ) :=
  l.foldl dictInsert []

instance : IsTotal ℚ (fun a b : ℚ => b ≤ a) := ⟨fun a b => le_total b a⟩

instance : IsTrans ℚ (fun a b : ℚ => b ≤ a) :=
  ⟨fun _ _ _ h1 h2 => le_trans h2 h1⟩

instance : IsTotal (String × ℚ) (fun a b : String × ℚ => b.2 ≤ a.2) :=
  ⟨fun a b => le_total b.2 a.2⟩

instance : IsTrans (String × ℚ) (fun a b : String × ℚ => b.2 ≤ a.2) :=
  ⟨fun _ _ _ h1 h2 => le_trans h2 h1⟩

/-- The fixed-threshold filter `[x for x in names if x[1] > thresh]`. -/
def acceptedByThresh (names : List (String × ℚ)) (thresh : ℚ) : List (String × ℚ) :=
  names.filter (fun x => thresh < x.2)

/-- The `(tag name, confidence)` pairs of one index group:
`[labels[i] for i in idxs]` on the zipped labels, assuming in-range indexes. -/
def groupSlice (tag_names : List String) (preds : List ℚ) (idxs : List Nat) :
    List (String × ℚ) :=
  idxs.map (fun i => (List.zip tag_names preds).getD i ("", 0))

/-- Stable descending sort by confidence, modelling
`sorted(general_res.items(), key=lambda x: x[1], reverse=True)`
(Python's sort is stable, so ties keep the pre-sort order). -/
def sortByConfDesc (l : List (String × ℚ)) : List (String × ℚ) :=
  List.insertionSort (fun a b => b.2 ≤ a.2) l

/-- Replacement of every occurrence of the character `c` by the character
list `r`, modelling Python `str.replace` with a one-character pattern. -/
def replaceChar (c : Char) (r : List Char) (s : List Char) : List Char :=
  s.flatMap (fun a => if a = c then r else [a])

/-- The escaping step `.replace("(", "\\(").replace(")", "\\)")`. -/
def escapeParens (s : String) : String :=
  String.mk (replaceChar ')' ['\\', ')'] (replaceChar '(' ['\\', '('] s.data))

/-- The tag-formatter tail of `predict`: stable-sort the accepted general map
by descending confidence, join the names with `", "`, escape parentheses. -/
def format_general (general_res : List (String × ℚ)) : String :=
  escapeParens (String.intercalate ", " ((sortByConfDesc general_res).map Prod.fst))

/-- Embedding of the post-inference part of `Predictor.predict`
(`app.py` lines 190-227): zip tag names with the prediction vector, slice the
three groups, threshold (fixed or MCut, with the 0.15 floor on the character
MCut threshold), build the result dicts and the formatted general string. -/
def predict_post (tag_names : List String)
    (rating_indexes general_indexes character_indexes : List Nat)
    (preds : List ℚ)
    (general_thresh : ℚ) (general_mcut_enabled : Bool)
    (character_thresh : ℚ) (character_mcut_enabled : Bool) :
    Except PyErr (String × List (String × ℚ) × List (String × ℚ) × List (String × ℚ)) :=
  let labels := List.zip tag_names preds
  match mapPyIndex labels rating_indexes with
  | .error e => .error e
  | .ok ratings_names =>
    let rating := dictOfList ratings_names
    match mapPyIndex labels general_indexes with
    | .error e => .error e
    | .ok general_names =>
      match (if general_mcut_enabled then
               match mcut_threshold (general_names.map Prod.snd) with
               | none => Except.error PyErr.valueError
               | some t => Except.ok t
             else Except.ok general_thresh) with
      | .error e => .error e
      | .ok gthresh =>
        let general_res := dictOfList (acceptedByThresh general_names gthresh)
        match mapPyIndex labels character_indexes with
        | .error e => .error e
        | .ok character_names =>
          match (if character_mcut_enabled then
                   match mcut_threshold (character_names.map Prod.snd) with
                   | none => Except.error PyErr.valueError
                   | some t => Except.ok (max (3 / 20 : ℚ) t)
                 else Except.ok character_thresh) with
          | .error e => .error e
          | .ok cthresh =>
            let character_res := dictOfList (acceptedByThresh character_names cthresh)
            .ok (format_general general_res, rating, character_res, general_res)

/-- Cached state of a `Predictor`, over an opaque model-handle type `M`.
`__init__` sets `model_target_size` and `last_loaded_repo` to `None`; the
other fields are first assigned inside `load_model`. -/
structure PredictorState (M : Type) where
  tag_names : List String
  rating_indexes : List Nat
  general_indexes : List Nat
  character_indexes : List Nat
  model : Option M
  model_target_size : Option Nat
  last_loaded_repo : Option String
  deriving DecidableEq

/-- The state after `Predictor.__init__`. -/
def initState (M : Type) : PredictorState M :=
  ⟨[], [], [], [], none, none, none⟩

/-- External collaborators used by `load_model`, each fallible:
the two `hf_hub_download` calls, `pd.read_csv` (together with the column
access in `load_labels`), and `rt.InferenceSession` (together with reading
the input shape, whose height is the target size). -/
structure Oracles (M : Type) where
  downloadCsv : String → Except PyErr String
  downloadModelFile : String → Except PyErr String
  readCsv : String → Except PyErr (List (String × Int))
  createSession : String → Except PyErr (M × Nat)

/-- Embedding of `Predictor.load_model(model_repo)` as a state transformer:
returns the new state and the raised exception, if any.  Mutations happen in
source order, so a failure leaves exactly the fields assigned before the
failing step updated. -/
def load_model {M : Type} (o : Oracles M) (s : PredictorState M) (model_repo : String) :
    PredictorState M × Option PyErr :=
  if some model_repo = s.last_loaded_repo then (s, none)
  else
    match o.downloadCsv model_repo with
    | .error e => (s, some e)
    | .ok csv_path =>
      match o.downloadModelFile model_repo with
      | .error e => (s, some e)
      | .ok model_path =>
        match o.readCsv csv_path with
        | .error e => (s, some e)
        | .ok rows =>
          let sep_tags := load_labels rows
          let s1 : PredictorState M :=
            { s with
              tag_names := sep_tags.1
              rating_indexes := sep_tags.2.1
              general_indexes := sep_tags.2.2.1
              character_indexes := sep_tags.2.2.2 }
          match o.createSession model_path with
          | .error e => (s1, some e)
          | .ok (m, height) =>
            ({ s1 with
               model_target_size := some height
               last_loaded_repo := some model_repo
               model := some m }, none)

/-- An RGBA pixel; channels are rationals standing for the 0-255 values. -/
structure RGBA where
  r : ℚ
  g : ℚ
  b : ℚ
  a : ℚ
  deriving DecidableEq

/-- An RGB pixel. -/
structure RGB where
  r : ℚ
  g : ℚ
  b : ℚ
  deriving DecidableEq

/-- An RGBA raster image: dimensions plus a pixel map. -/
structure ImgRGBA where
  width : Nat
  height : Nat
  pix : Nat → Nat → RGBA

/-- An RGB raster image. -/
structure ImgRGB where
  width : Nat
  height : Nat
  pix : Nat → Nat → RGB

/-- Opaque white. -/
def whiteRGB : RGB := ⟨255, 255, 255⟩

/-- Alpha compositing of one RGBA pixel over opaque white
(`canvas.alpha_composite(image)` with a white canvas, then `.convert("RGB")`). -/
def blendOverWhite (p : RGBA) : RGB :=
  ⟨(p.a * p.r + (255 - p.a) * 255) / 255,
   (p.a * p.g + (255 - p.a) * 255) / 255,
   (p.a * p.b + (255 - p.a) * 255) / 255⟩

/-- Step 1 of `prepare_image`: flatten transparency over white. -/
def flattenOverWhite (image : ImgRGBA) : ImgRGB :=
  ⟨image.width, image.height, fun x y => blendOverWhite (image.pix x y)⟩

/-- Step 2 of `prepare_image`: paste onto a white `max_dim × max_dim` canvas
at offsets `((max_dim - w) // 2, (max_dim - h) // 2)`. -/
def padToSquare (image : ImgRGB) : ImgRGB :=
  let max_dim := max image.width image.height
  let pad_left := (max_dim - image.width) / 2
  let pad_top := (max_dim - image.height) / 2
  ⟨max_dim, max_dim, fun x y =>
    if pad_left ≤ x ∧ x < pad_left + image.width ∧
       pad_top ≤ y ∧ y < pad_top + image.height then
      image.pix (x - pad_left) (y - pad_top)
    else whiteRGB⟩

/-- A resampling kernel stands in for PIL's bicubic interpolation: given the
source image and the target edge length it yields the resized pixel map.
`resize((S, S), BICUBIC)` always returns an `S × S` image. -/
def resizeTo (S : Nat) (kernel : ImgRGB → Nat → Nat → Nat → RGB) (image : ImgRGB) : ImgRGB :=
  ⟨S, S, kernel image S⟩

/-- Steps 4-5 of `prepare_image`: `np.asarray` of the image (row-major
`[height][width][channel]`), channel axis reversed (`[:, :, ::-1]`, so BGR),
raw 0-255 values, then `expand_dims(axis=0)`. -/
def toTensorBGR (image : ImgRGB) : List (List (List (List ℚ))) :=
  [(List.range image.height).map (fun y =>
    (List.range image.width).map (fun x =>
      [(image.pix x y).b, (image.pix x y).g, (image.pix x y).r]))]

/-- Embedding of `Predictor.prepare_image(image)` with target size `S`,
parameterised by the opaque bicubic kernel. -/
def prepare_image (S : Nat) (kernel : ImgRGB → Nat → Nat → Nat → RGB)
    (image : ImgRGBA) : List (List (List (List ℚ))) :=
  let flat := flattenOverWhite image
  let padded := padToSquare flat
  let max_dim := max image.width image.height
  let resized := if max_dim ≠ S then resizeTo S kernel padded else padded
  toTensorBGR resized

/-- Shape predicate for a rank-3 tensor given as nested lists. -/
def hasShape3 (t : List (List (List ℚ))) (a b c : Nat) : Prop :=
  t.length = a ∧ ∀ row ∈ t, row.length = b ∧ ∀ px ∈ row, px.length = c

instance (t : List (List (List ℚ))) (a b c : Nat) : Decidable (hasShape3 t a b c) := by
  unfold hasShape3; infer_instance

/-- Shape predicate for a rank-4 tensor given as nested lists. -/
def hasShape4 (t : List (List (List (List ℚ)))) (n a b c : Nat) : Prop :=
  t.length = n ∧ ∀ p ∈ t, hasShape3 p a b c

instance (t : List (List (List (List ℚ)))) (n a b c : Nat) : Decidable (hasShape4 t n a b c) := by
  unfold hasShape4; infer_instance

/-- The property of being the index that `numpy.argmax` returns: an in-range
position holding a maximal value, strictly greater than every value before it
(first maximum on ties). -/
def isFirstArgmax (l : List ℚ) (k : Nat) : Prop :=
  k < l.length ∧ (∀ j, j < l.length → l.getD j 0 ≤ l.getD k 0) ∧
    ∀ j, j < k → l.getD j 0 < l.getD k 0

theorem argmaxFirst_none_iff (l : List ℚ) : argmaxFirst l = none ↔ l = [] := by
  cases l with
  | nil => simp [argmaxFirst]
  | cons x xs =>
    cases h : argmaxFirst xs with
    | none => simp [argmaxFirst, h]
    | some k =>
      simp only [argmaxFirst, h]
      split <;> simp

theorem argmaxFirst_spec : ∀ (l : List ℚ) (k : Nat), argmaxFirst l = some k → isFirstArgmax l k
  | [], k => by simp [argmaxFirst]
  | x :: xs, k => by
    intro h
    cases hxs : argmaxFirst xs with
    | none =>
      have hnil : xs = [] := (argmaxFirst_none_iff xs).mp hxs
      subst hnil
      simp only [argmaxFirst] at h
      have hk : k = 0 := by simpa using h.symm
      subst hk
      refine ⟨by simp, ?_, by omega⟩
      intro j hj
      have hj0 : j = 0 := by simpa using hj
      subst hj0
      simp
    | some k' =>
      obtain ⟨hk'len, hmax, hfirst⟩ := argmaxFirst_spec xs k' hxs
      simp only [argmaxFirst, hxs] at h
      by_cases hlt : x < xs.getD k' 0
      · rw [if_pos hlt] at h
        have hk : k = k' + 1 := by simpa using h.symm
        subst hk
        refine ⟨by simpa using hk'len, ?_, ?_⟩
        · intro j hj
          cases j with
          | zero => simpa using le_of_lt hlt
          | succ j' =>
            simp only [List.getD_cons_succ]
            exact hmax j' (by simpa using hj)
        · intro j hj
          cases j with
          | zero => simpa using hlt
          | succ j' =>
            simp only [List.getD_cons_succ]
            exact hfirst j' (by omega)
      · rw [if_neg hlt] at h
        have hk : k = 0 := by simpa using h.symm
        subst hk
        refine ⟨by simp, ?_, by omega⟩
        intro j hj
        cases j with
        | zero => simp
        | succ j' =>
          simp only [List.getD_cons_succ, List.getD_cons_zero]
          exact le_trans (hmax j' (by simpa using hj)) (not_lt.mp hlt)

theorem sortDesc_perm (probs : List ℚ) : (sortDesc probs).Perm probs :=
  List.perm_insertionSort _ probs

theorem sortDesc_sorted (probs : List ℚ) :
    (sortDesc probs).Sorted (fun a b : ℚ => b ≤ a) :=
  List.sorted_insertionSort _ probs

theorem length_sortDesc (probs : List ℚ) : (sortDesc probs).length = probs.length :=
  (sortDesc_perm probs).length_eq

theorem length_mcutDifs (probs : List ℚ) :
    (mcutDifs probs).length = probs.length - 1 := by
  unfold mcutDifs
  rw [List.length_zipWith, List.length_tail, length_sortDesc]
  omega

theorem mcut_threshold_short (probs : List ℚ) (h : probs.length < 2) :
    mcut_threshold probs = none := by
  have hl : mcutDifs probs = [] := by
    have := length_mcutDifs probs
    cases hd : mcutDifs probs with
    | nil => rfl
    | cons a l => rw [hd] at this; simp at this; omega
  unfold mcut_threshold
  rw [hl]
  rfl

theorem mcut_threshold_spec (probs : List ℚ) (h : 2 ≤ probs.length) :
    ∃ k, isFirstArgmax (mcutDifs probs) k ∧ k + 1 < (sortDesc probs).length ∧
      mcut_threshold probs =
        some (((sortDesc probs).getD k 0 + (sortDesc probs).getD (k + 1) 0) / 2) := by
  have hlen : (mcutDifs probs).length = probs.length - 1 := length_mcutDifs probs
  cases hk : argmaxFirst (mcutDifs probs) with
  | none =>
    have hnil := (argmaxFirst_none_iff _).mp hk
    rw [hnil] at hlen
    simp at hlen
    omega
  | some k =>
    have hspec := argmaxFirst_spec _ _ hk
    refine ⟨k, hspec, ?_, ?_⟩
    · have := hspec.1
      rw [hlen] at this
      rw [length_sortDesc]
      omega
    · unfold mcut_threshold
      rw [hk]

theorem mapPyIndex_ok (labels : List (String × ℚ)) :
    ∀ (idxs : List Nat), (∀ i ∈ idxs, i < labels.length) →
      mapPyIndex labels idxs = .ok (idxs.map (fun i => labels.getD i ("", 0)))
  | [], _ => rfl
  | i :: idxs, h => by
    have hi : i < labels.length := h i (by simp)
    have hrest := mapPyIndex_ok labels idxs (fun j hj => h j (by simp [hj]))
    unfold mapPyIndex pyIndex
    cases hx : labels.get? i with
    | none =>
      have := List.get?_eq_none.mp hx
      omega
    | some x =>
      rw [hrest]
      simp only [List.map_cons]
      have hgd : labels.getD i ("", 0) = x := by
        rw [List.getD_eq_getElem?_getD, ← List.get?_eq_getElem?, hx]
        rfl
      rw [hgd]

theorem lookup_pair_cons (k a : String) (b : ℚ) (l : List (String × ℚ)) :
    List.lookup k ((a, b) :: l) = if k = a then some b else List.lookup k l := by
  rw [List.lookup_cons]
  by_cases h : k = a
  · simp [h]
  · have hb : (k == a) = false := by simpa using h
    simp [hb, h]

theorem lookup_append (d e : List (String × ℚ)) (k : String) :
    List.lookup k (d ++ e) = (List.lookup k d).or (List.lookup k e) := by
  induction d with
  | nil => simp
  | cons p d ih =>
    cases p with
    | mk a b =>
      rw [List.cons_append, lookup_pair_cons, lookup_pair_cons]
      by_cases hk : k = a
      · simp [hk]
      · simp only [if_neg hk]
        exact ih

theorem lookup_none_of_any_false (d : List (String × ℚ)) (k : String)
    (h : d.any (fun p => p.1 = k) = false) : List.lookup k d = none := by
  induction d with
  | nil => rfl
  | cons p d ih =>
    simp only [List.any_cons, Bool.or_eq_false_iff] at h
    have hne : p.1 ≠ k := by simpa using h.1
    cases p with
    | mk a b =>
      rw [lookup_pair_cons, if_neg (fun he => hne (Eq.symm he))]
      exact ih h.2

theorem lookup_map_update_self (d : List (String × ℚ)) (k : String) (v : ℚ)
    (h : d.any (fun p => p.1 = k) = true) :
    List.lookup k (d.map (fun p => if p.1 = k then (p.1, v) else p)) = some v := by
  induction d with
  | nil => simp at h
  | cons p d ih =>
    cases p with
    | mk a b =>
      by_cases hp : a = k
      · have hif : (if (a, b).1 = k then ((a, b).1, v) else (a, b)) = (a, v) := by
          simp [hp]
        rw [List.map_cons, hif, lookup_pair_cons, if_pos (Eq.symm hp)]
      · have hif : (if (a, b).1 = k then ((a, b).1, v) else (a, b)) = (a, b) := by
          simp [hp]
        rw [List.map_cons, hif, lookup_pair_cons, if_neg (fun he => hp (Eq.symm he))]
        apply ih
        simp only [List.any_cons, Bool.or_eq_true_iff] at h
        rcases h with h | h
        · exact absurd (by simpa using h) hp
        · exact h

theorem lookup_map_update_ne (d : List (String × ℚ)) (k k' : String) (v : ℚ)
    (h : k ≠ k') :
    List.lookup k (d.map (fun p => if p.1 = k' then (p.1, v) else p)) =
      List.lookup k d := by
  induction d with
  | nil => rfl
  | cons p d ih =>
    cases p with
    | mk a b =>
      by_cases hp : a = k'
      · have hif : (if (a, b).1 = k' then ((a, b).1, v) else (a, b)) = (a, v) := by
          simp [hp]
        rw [List.map_cons, hif, lookup_pair_cons, lookup_pair_cons]
        have hk : k ≠ a := fun he => h (he ▸ hp)
        rw [if_neg hk, if_neg hk, ih]
      · have hif : (if (a, b).1 = k' then ((a, b).1, v) else (a, b)) = (a, b) := by
          simp [hp]
        rw [List.map_cons, hif, lookup_pair_cons, lookup_pair_cons, ih]

theorem lookup_dictInsert_self (d : List (String × ℚ)) (k : String) (v : ℚ) :
    List.lookup k (dictInsert d (k, v)) = some v := by
  unfold dictInsert
  by_cases hany : d.any (fun p => p.1 = k) = true
  · rw [if_pos hany]
    exact lookup_map_update_self d k v hany
  · rw [if_neg hany]
    rw [lookup_append, lookup_none_of_any_false d k (Bool.eq_false_iff.mpr hany)]
    simp [lookup_pair_cons]

theorem lookup_dictInsert_ne (d : List (String × ℚ)) (k k' : String) (v : ℚ)
    (h : k ≠ k') :
    List.lookup k (dictInsert d (k', v)) = List.lookup k d := by
  unfold dictInsert
  by_cases hany : d.any (fun p => p.1 = k') = true
  · rw [if_pos hany]
    exact lookup_map_update_ne d k k' v h
  · rw [if_neg hany]
    rw [lookup_append]
    simp [lookup_pair_cons, h]

theorem lookup_foldl_dictInsert :
    ∀ (l d : List (String × ℚ)) (k : String),
      List.lookup k (l.foldl dictInsert d) =
        match l.reverse.find? (fun p => p.1 == k) with
        | some p => some p.2
        | none => List.lookup k d
  | [], d, k => by simp
  | (k', v) :: l, d, k => by
    rw [List.foldl_cons, lookup_foldl_dictInsert l (dictInsert d (k', v)) k]
    have hfind : ((k', v) :: l).reverse.find? (fun p => p.1 == k) =
        (l.reverse.find? (fun p => p.1 == k)).or
          (if k' == k then some (k', v) else none) := by
      rw [List.reverse_cons, List.find?_append]
      cases hl : l.reverse.find? (fun p => p.1 == k) with
      | some p => simp [Option.or]
      | none =>
        simp only [Option.or]
        cases hk : (k' == k) with
        | true => simp [List.find?, hk]
        | false => simp [List.find?, hk]
    rw [hfind]
    cases hl : l.reverse.find? (fun p => p.1 == k) with
    | some p => simp [Option.or]
    | none =>
      simp only [Option.or]
      cases hk : (k' == k) with
      | true =>
        have hkk : k = k' := (beq_iff_eq.mp hk).symm
        subst hkk
        simp [lookup_dictInsert_self]
      | false =>
        have hkk : k ≠ k' := fun he => by simp [he] at hk
        simp [lookup_dictInsert_ne _ _ _ _ hkk]

theorem lookup_dictOfList (l : List (String × ℚ)) (k : String) :
    List.lookup k (dictOfList l) =
      (l.reverse.find? (fun p => p.1 == k)).map Prod.snd := by
  unfold dictOfList
  rw [lookup_foldl_dictInsert]
  cases h : l.reverse.find? (fun p => p.1 == k) <;> simp

theorem length_dictInsert (d : List (String × ℚ)) (kv : String × ℚ) :
    (dictInsert d kv).length ≤ d.length + 1 := by
  unfold dictInsert
  split
  · simp
  · simp

theorem length_foldl_dictInsert :
    ∀ (l d : List (String × ℚ)), (l.foldl dictInsert d).length ≤ d.length + l.length
  | [], d => by simp
  | kv :: l, d => by
    rw [List.foldl_cons]
    have h1 := length_foldl_dictInsert l (dictInsert d kv)
    have h2 := length_dictInsert d kv
    simp only [List.length_cons]
    omega

theorem length_dictOfList (l : List (String × ℚ)) :
    (dictOfList l).length ≤ l.length := by
  have := length_foldl_dictInsert l []
  simpa [dictOfList] using this

theorem sortByConfDesc_perm (l : List (String × ℚ)) : (sortByConfDesc l).Perm l :=
  List.perm_insertionSort _ l

theorem sortByConfDesc_sorted (l : List (String × ℚ)) :
    (sortByConfDesc l).Sorted (fun a b : String × ℚ => b.2 ≤ a.2) :=
  List.sorted_insertionSort _ l

theorem filter_orderedInsert_conf (c : ℚ) (x : String × ℚ) :
    ∀ l : List (String × ℚ),
      (List.orderedInsert (fun a b : String × ℚ => b.2 ≤ a.2) x l).filter
          (fun p => p.2 == c) =
        if (x.2 == c) = true then x :: l.filter (fun p => p.2 == c)
        else l.filter (fun p => p.2 == c)
  | [] => by
    cases hx : (x.2 == c) <;> simp [List.orderedInsert, List.filter_cons, hx]
  | y :: l => by
    simp only [List.orderedInsert]
    by_cases hr : y.2 ≤ x.2
    · rw [if_pos hr]
      rw [List.filter_cons, List.filter_cons]
    · rw [if_neg hr]
      rw [List.filter_cons, filter_orderedInsert_conf c x l, List.filter_cons]
      by_cases hx : (x.2 == c) = true
      · have hyc : (y.2 == c) = false := by
          have hlt : x.2 < y.2 := not_le.mp hr
          have hxc : x.2 = c := beq_iff_eq.mp hx
          have : y.2 ≠ c := fun he => absurd hlt (by rw [he, ← hxc]; exact lt_irrefl _)
          simpa using this
        rw [if_pos hx, if_pos hx, hyc]
        simp
      · have hx' : (x.2 == c) = false := Bool.eq_false_iff.mpr hx
        rw [hx']
        simp only [Bool.false_eq_true, if_false]

theorem filter_sortByConfDesc (l : List (String × ℚ)) (c : ℚ) :
    (sortByConfDesc l).filter (fun p => p.2 == c) = l.filter (fun p => p.2 == c) := by
  induction l with
  | nil => rfl
  | cons x l ih =>
    unfold sortByConfDesc at ih ⊢
    rw [List.insertionSort, filter_orderedInsert_conf, List.filter_cons, ih]

theorem replaceChar_append (c : Char) (r l1 l2 : List Char) :
    replaceChar c r (l1 ++ l2) = replaceChar c r l1 ++ replaceChar c r l2 := by
  unfold replaceChar
  exact List.flatMap_append l1 l2 _

/-- The two successive `str.replace` calls of the formatter act as one pass
escaping exactly the parenthesis characters. -/
theorem replaceChar_comp (l : List Char) :
    replaceChar ')' ['\\', ')'] (replaceChar '(' ['\\', '('] l) =
      l.flatMap (fun c => if c = '(' ∨ c = ')' then ['\\', c] else [c]) := by
  induction l with
  | nil => rfl
  | cons c l ih =>
    unfold replaceChar at ih ⊢
    rw [List.flatMap_cons c l (fun a => if a = '(' then ['\\', '('] else [a]),
        List.flatMap_append, List.flatMap_cons, ih]
    by_cases h1 : c = '('
    · subst h1
      simp
    · by_cases h2 : c = ')'
      · subst h2
        simp
      · simp [h1, h2]

theorem escapeParens_eq (s : String) :
    escapeParens s =
      String.mk (s.data.flatMap (fun c => if c = '(' ∨ c = ')' then ['\\', c] else [c])) := by
  unfold escapeParens
  rw [replaceChar_comp]

theorem padToSquare_width (img : ImgRGB) :
    (padToSquare img).width = max img.width img.height := rfl

theorem padToSquare_height (img : ImgRGB) :
    (padToSquare img).height = max img.width img.height := rfl

theorem flattenOverWhite_width (image : ImgRGBA) :
    (flattenOverWhite image).width = image.width := rfl

theorem flattenOverWhite_height (image : ImgRGBA) :
    (flattenOverWhite image).height = image.height := rfl

theorem toTensorBGR_shape (img : ImgRGB) :
    hasShape4 (toTensorBGR img) 1 img.height img.width 3 := by
  unfold toTensorBGR hasShape4 hasShape3
  refine ⟨rfl, ?_⟩
  intro p hp
  simp only [List.mem_singleton] at hp
  subst hp
  refine ⟨by simp, ?_⟩
  intro row hrow
  simp only [List.mem_map, List.mem_range] at hrow
  obtain ⟨y, hy, rfl⟩ := hrow
  refine ⟨by simp, ?_⟩
  intro px hpx
  simp only [List.mem_map, List.mem_range] at hpx
  obtain ⟨x, hx, rfl⟩ := hpx
  rfl

theorem getD_map_range {α : Type} (n : Nat) (f : Nat → α) (y : Nat) (hy : y < n) (d : α) :
    ((List.range n).map f).getD y d = f y := by
  simp [List.getD_eq_getElem?_getD, List.getElem?_map, List.getElem?_range, hy]

theorem toTensorBGR_entry (img : ImgRGB) (x y : Nat)
    (hx : x < img.width) (hy : y < img.height) :
    (((toTensorBGR img).getD 0 []).getD y []).getD x [] =
      [(img.pix x y).b, (img.pix x y).g, (img.pix x y).r] := by
  unfold toTensorBGR
  rw [List.getD_cons_zero, getD_map_range _ _ y hy, getD_map_range _ _ x hx]

theorem padToSquare_pix_in_window (img : ImgRGB) (x y : Nat)
    (hx : x < img.width) (hy : y < img.height) :
    (padToSquare img).pix ((max img.width img.height - img.width) / 2 + x)
        ((max img.width img.height - img.height) / 2 + y) = img.pix x y := by
  unfold padToSquare
  dsimp only
  rw [if_pos (by omega)]
  rw [Nat.add_sub_cancel_left, Nat.add_sub_cancel_left]

theorem padToSquare_pix_outside (img : ImgRGB) (x y : Nat)
    (h : x < (max img.width img.height - img.width) / 2 ∨
         (max img.width img.height - img.width) / 2 + img.width ≤ x ∨
         y < (max img.width img.height - img.height) / 2 ∨
         (max img.width img.height - img.height) / 2 + img.height ≤ y) :
    (padToSquare img).pix x y = whiteRGB := by
  unfold padToSquare
  dsimp only
  rw [if_neg (by omega)]

theorem prepare_image_shape (S : Nat) (kernel : ImgRGB → Nat → Nat → Nat → RGB)
    (image : ImgRGBA) : hasShape4 (prepare_image S kernel image) 1 S S 3 := by
  unfold prepare_image
  dsimp only
  by_cases h : max image.width image.height ≠ S
  · rw [if_pos h]
    exact toTensorBGR_shape (resizeTo S kernel (padToSquare (flattenOverWhite image)))
  · rw [if_neg h]
    push_neg at h
    have hsh := toTensorBGR_shape (padToSquare (flattenOverWhite image))
    rw [padToSquare_width, padToSquare_height, flattenOverWhite_width,
        flattenOverWhite_height, h] at hsh
    exact hsh

theorem prepare_image_kernel_indep (S : Nat)
    (k1 k2 : ImgRGB → Nat → Nat → Nat → RGB) (image : ImgRGBA)
    (h : max image.width image.height = S) :
    prepare_image S k1 image = prepare_image S k2 image := by
  unfold prepare_image
  dsimp only
  rw [if_neg (by simp [h]), if_neg (by simp [h])]

theorem prepare_image_entry (S : Nat) (kernel : ImgRGB → Nat → Nat → Nat → RGB)
    (image : ImgRGBA) (h : max image.width image.height = S)
    (x y : Nat) (hx : x < S) (hy : y < S) :
    (((prepare_image S kernel image).getD 0 []).getD y []).getD x [] =
      [((padToSquare (flattenOverWhite image)).pix x y).b,
       ((padToSquare (flattenOverWhite image)).pix x y).g,
       ((padToSquare (flattenOverWhite image)).pix x y).r] := by
  unfold prepare_image
  dsimp only
  rw [if_neg (by simp [h])]
  apply toTensorBGR_entry
  · rw [padToSquare_width, flattenOverWhite_width, flattenOverWhite_height, h]
    exact hx
  · rw [padToSquare_height, flattenOverWhite_width, flattenOverWhite_height, h]
    exact hy

theorem mapPyIndex_zip_ok (tag_names : List String) (preds : List ℚ) (idxs : List Nat)
    (h : ∀ i ∈ idxs, i < (List.zip tag_names preds).length) :
    mapPyIndex (List.zip tag_names preds) idxs = .ok (groupSlice tag_names preds idxs) :=
  mapPyIndex_ok _ idxs h

theorem predict_post_fixed (tag_names : List String) (preds : List ℚ)
    (ri gi ci : List Nat) (gt ct : ℚ)
    (h : ∀ i ∈ ri ++ gi ++ ci, i < (List.zip tag_names preds).length) :
    predict_post tag_names ri gi ci preds gt false ct false =
      .ok (format_general (dictOfList (acceptedByThresh (groupSlice tag_names preds gi) gt)),
           dictOfList (groupSlice tag_names preds ri),
           dictOfList (acceptedByThresh (groupSlice tag_names preds ci) ct),
           dictOfList (acceptedByThresh (groupSlice tag_names preds gi) gt)) := by
  have hri : ∀ i ∈ ri, i < (List.zip tag_names preds).length :=
    fun i hi => h i (by simp [hi])
  have hgi : ∀ i ∈ gi, i < (List.zip tag_names preds).length :=
    fun i hi => h i (by simp [hi])
  have hci : ∀ i ∈ ci, i < (List.zip tag_names preds).length :=
    fun i hi => h i (by simp [hi])
  unfold predict_post
  simp only [mapPyIndex_zip_ok _ _ _ hri, mapPyIndex_zip_ok _ _ _ hgi,
    mapPyIndex_zip_ok _ _ _ hci, Bool.false_eq_true, if_false]

theorem predict_post_general_mcut (tag_names : List String) (preds : List ℚ)
    (ri gi ci : List Nat) (gt ct tg : ℚ)
    (h : ∀ i ∈ ri ++ gi ++ ci, i < (List.zip tag_names preds).length)
    (hm : mcut_threshold ((groupSlice tag_names preds gi).map Prod.snd) = some tg) :
    predict_post tag_names ri gi ci preds gt true ct false =
      .ok (format_general (dictOfList (acceptedByThresh (groupSlice tag_names preds gi) tg)),
           dictOfList (groupSlice tag_names preds ri),
           dictOfList (acceptedByThresh (groupSlice tag_names preds ci) ct),
           dictOfList (acceptedByThresh (groupSlice tag_names preds gi) tg)) := by
  have hri : ∀ i ∈ ri, i < (List.zip tag_names preds).length :=
    fun i hi => h i (by simp [hi])
  have hgi : ∀ i ∈ gi, i < (List.zip tag_names preds).length :=
    fun i hi => h i (by simp [hi])
  have hci : ∀ i ∈ ci, i < (List.zip tag_names preds).length :=
    fun i hi => h i (by simp [hi])
  unfold predict_post
  simp only [mapPyIndex_zip_ok _ _ _ hri, mapPyIndex_zip_ok _ _ _ hgi,
    mapPyIndex_zip_ok _ _ _ hci, hm, Bool.false_eq_true, if_false, if_true]

theorem predict_post_char_mcut (tag_names : List String) (preds : List ℚ)
    (ri gi ci : List Nat) (gt ct tc : ℚ)
    (h : ∀ i ∈ ri ++ gi ++ ci, i < (List.zip tag_names preds).length)
    (hm : mcut_threshold ((groupSlice tag_names preds ci).map Prod.snd) = some tc) :
    predict_post tag_names ri gi ci preds gt false ct true =
      .ok (format_general (dictOfList (acceptedByThresh (groupSlice tag_names preds gi) gt)),
           dictOfList (groupSlice tag_names preds ri),
           dictOfList (acceptedByThresh (groupSlice tag_names preds ci) (max (3 / 20) tc)),
           dictOfList (acceptedByThresh (groupSlice tag_names preds gi) gt)) := by
  have hri : ∀ i ∈ ri, i < (List.zip tag_names preds).length :=
    fun i hi => h i (by simp [hi])
  have hgi : ∀ i ∈ gi, i < (List.zip tag_names preds).length :=
    fun i hi => h i (by simp [hi])
  have hci : ∀ i ∈ ci, i < (List.zip tag_names preds).length :=
    fun i hi => h i (by simp [hi])
  unfold predict_post
  simp only [mapPyIndex_zip_ok _ _ _ hri, mapPyIndex_zip_ok _ _ _ hgi,
    mapPyIndex_zip_ok _ _ _ hci, hm, Bool.false_eq_true, if_false, if_true]

theorem length_groupSlice (tag_names : List String) (preds : List ℚ) (idxs : List Nat) :
    (groupSlice tag_names preds idxs).length = idxs.length := by
  unfold groupSlice
  simp

theorem predict_post_general_mcut_err (tag_names : List String) (preds : List ℚ)
    (ri gi ci : List Nat) (gt ct : ℚ)
    (h : ∀ i ∈ ri ++ gi, i < (List.zip tag_names preds).length)
    (hlen : gi.length < 2) (cm : Bool) :
    predict_post tag_names ri gi ci preds gt true ct cm = .error .valueError := by
  have hri : ∀ i ∈ ri, i < (List.zip tag_names preds).length :=
    fun i hi => h i (by simp [hi])
  have hgi : ∀ i ∈ gi, i < (List.zip tag_names preds).length :=
    fun i hi => h i (by simp [hi])
  have hm : mcut_threshold ((groupSlice tag_names preds gi).map Prod.snd) = none := by
    apply mcut_threshold_short
    rw [List.length_map, length_groupSlice]
    exact hlen
  unfold predict_post
  simp only [mapPyIndex_zip_ok _ _ _ hri, mapPyIndex_zip_ok _ _ _ hgi, hm, if_true]

theorem predict_post_char_mcut_err (tag_names : List String) (preds : List ℚ)
    (ri gi ci : List Nat) (gt ct : ℚ)
    (h : ∀ i ∈ ri ++ gi ++ ci, i < (List.zip tag_names preds).length)
    (hlen : ci.length < 2) :
    predict_post tag_names ri gi ci preds gt false ct true = .error .valueError := by
  have hri : ∀ i ∈ ri, i < (List.zip tag_names preds).length :=
    fun i hi => h i (by simp [hi])
  have hgi : ∀ i ∈ gi, i < (List.zip tag_names preds).length :=
    fun i hi => h i (by simp [hi])
  have hci : ∀ i ∈ ci, i < (List.zip tag_names preds).length :=
    fun i hi => h i (by simp [hi])
  have hm : mcut_threshold ((groupSlice tag_names preds ci).map Prod.snd) = none := by
    apply mcut_threshold_short
    rw [List.length_map, length_groupSlice]
    exact hlen
  unfold predict_post
  simp only [mapPyIndex_zip_ok _ _ _ hri, mapPyIndex_zip_ok _ _ _ hgi,
    mapPyIndex_zip_ok _ _ _ hci, hm, Bool.false_eq_true, if_false, if_true]

theorem load_model_ok_last {M : Type} (o : Oracles M) (s : PredictorState M)
    (repo : String) (s' : PredictorState M)
    (h : load_model o s repo = (s', none)) : s'.last_loaded_repo = some repo := by
  unfold load_model at h
  by_cases hg : some repo = s.last_loaded_repo
  · rw [if_pos hg] at h
    have hs : s = s' := congrArg Prod.fst h
    rw [← hs, ← hg]
  · rw [if_neg hg] at h
    cases h1 : o.downloadCsv repo with
    | error e =>
      rw [h1] at h
      dsimp only at h
      exact absurd (congrArg Prod.snd h) (by simp)
    | ok csv_path =>
      rw [h1] at h
      dsimp only at h
      cases h2 : o.downloadModelFile repo with
      | error e =>
        rw [h2] at h
        dsimp only at h
        exact absurd (congrArg Prod.snd h) (by simp)
      | ok model_path =>
        rw [h2] at h
        dsimp only at h
        cases h3 : o.readCsv csv_path with
        | error e =>
          rw [h3] at h
          dsimp only at h
          exact absurd (congrArg Prod.snd h) (by simp)
        | ok rows =>
          rw [h3] at h
          dsimp only at h
          cases h4 : o.createSession model_path with
          | error e =>
            rw [h4] at h
            dsimp only at h
            exact absurd (congrArg Prod.snd h) (by simp)
          | ok mh =>
            obtain ⟨m, height⟩ := mh
            rw [h4] at h
            dsimp only at h
            have hs := congrArg Prod.fst h
            dsimp only at hs
            rw [← hs]

/-- C1 counterexample: the classifier output (length 2) does not match the
catalog (length 3), yet `predict` succeeds — `zip` silently truncates the
`(name, confidence)` pairs to the shorter length, no error is raised. -/
theorem c1_counterexample :
    (["a", "b", "c"] : List String).length ≠ ([1/2, 1/4] : List ℚ).length ∧
    predict_post ["a", "b", "c"] [0] [1] [] [1/2, 1/4] 0 false 0 false =
      .ok ("b", [("a", 1/2)], [], [("b", 1/4)]) := by
  with_unfolding_all decide

/-- C1 (amended): when the classifier output length differs from the catalog
length, `predict` does not fail: `zip` silently truncates the pairs to the
shorter of the two lengths, and the call succeeds whenever every group index
lies below that truncated length. -/
theorem c1_amended_silent_truncation :
    (∀ (tag_names : List String) (preds : List ℚ),
        (List.zip tag_names preds).length = min tag_names.length preds.length) ∧
    (∀ (tag_names : List String) (preds : List ℚ) (ri gi ci : List Nat) (gt ct : ℚ),
        (∀ i ∈ ri ++ gi ++ ci, i < min tag_names.length preds.length) →
        ∃ r, predict_post tag_names ri gi ci preds gt false ct false = .ok r) := by
  refine ⟨fun t p => List.length_zip t p, ?_⟩
  intro tag_names preds ri gi ci gt ct h
  exact ⟨_, predict_post_fixed tag_names preds ri gi ci gt ct
    (fun i hi => by rw [List.length_zip]; exact h i hi)⟩

/-- C1 witness: the amended theorem applied at a concrete mismatched input
(one tag name, two confidences). -/
theorem c1_witness :
    (∀ i ∈ ([] ++ [0] ++ [] : List Nat),
        i < min (["a"] : List String).length ([1/2, 3/4] : List ℚ).length) ∧
    ∃ r, predict_post ["a"] [] [0] [] [1/2, 3/4] 0 false 0 false = .ok r :=
  ⟨by decide, c1_amended_silent_truncation.2 ["a"] [1/2, 3/4] [] [0] [] 0 0 (by decide)⟩

/-- C2 counterexample: a load whose classifier construction fails leaves the
cache half-updated — `tag_names` already holds the new catalog while
`last_loaded_repo` still holds the old identifier — refuting the claim that
the previously cached state is left exactly as it was on every failure. -/
theorem c2_counterexample :
    (load_model
        (⟨fun _ => .ok "csv", fun _ => .ok "model", fun _ => .ok [("new", 0)],
          fun _ => .error .sessionError⟩ : Oracles Nat)
        (⟨["old"], [0], [1], [2], some 7, some 224, some "r0"⟩ : PredictorState Nat)
        "r1").2 = some PyErr.sessionError ∧
    (load_model
        (⟨fun _ => .ok "csv", fun _ => .ok "model", fun _ => .ok [("new", 0)],
          fun _ => .error .sessionError⟩ : Oracles Nat)
        (⟨["old"], [0], [1], [2], some 7, some 224, some "r0"⟩ : PredictorState Nat)
        "r1").1.tag_names = ["new"] ∧
    (load_model
        (⟨fun _ => .ok "csv", fun _ => .ok "model", fun _ => .ok [("new", 0)],
          fun _ => .error .sessionError⟩ : Oracles Nat)
        (⟨["old"], [0], [1], [2], some 7, some 224, some "r0"⟩ : PredictorState Nat)
        "r1").1 ≠
      (⟨["old"], [0], [1], [2], some 7, some 224, some "r0"⟩ : PredictorState Nat) := by
  with_unfolding_all decide

/-- C2 (amended): failures of the artifact fetch or the label-table parse do
leave the cached state untouched, but a failure of classifier construction
happens after the label fields were assigned: the post-state has `tag_names`
and the three index groups replaced while `model`, `model_target_size` and
`last_loaded_repo` keep their old values. -/
theorem c2_amended_partial_update :
    ∀ (M : Type) (o : Oracles M) (s : PredictorState M) (repo : String),
      s.last_loaded_repo ≠ some repo →
      (∀ e, o.downloadCsv repo = .error e → load_model o s repo = (s, some e)) ∧
      (∀ csv_path e, o.downloadCsv repo = .ok csv_path →
        o.downloadModelFile repo = .error e → load_model o s repo = (s, some e)) ∧
      (∀ csv_path model_path e, o.downloadCsv repo = .ok csv_path →
        o.downloadModelFile repo = .ok model_path → o.readCsv csv_path = .error e →
        load_model o s repo = (s, some e)) ∧
      (∀ csv_path model_path rows e, o.downloadCsv repo = .ok csv_path →
        o.downloadModelFile repo = .ok model_path → o.readCsv csv_path = .ok rows →
        o.createSession model_path = .error e →
        load_model o s repo =
          ({ s with
             tag_names := (load_labels rows).1
             rating_indexes := (load_labels rows).2.1
             general_indexes := (load_labels rows).2.2.1
             character_indexes := (load_labels rows).2.2.2 }, some e)) := by
  intro M o s repo hne
  have hguard : ¬ (some repo = s.last_loaded_repo) := fun he => hne he.symm
  refine ⟨?_, ?_, ?_, ?_⟩
  · intro e h1
    unfold load_model
    rw [if_neg hguard, h1]
  · intro csv_path e h1 h2
    unfold load_model
    rw [if_neg hguard, h1]
    dsimp only
    rw [h2]
  · intro csv_path model_path e h1 h2 h3
    unfold load_model
    rw [if_neg hguard, h1]
    dsimp only
    rw [h2]
    dsimp only
    rw [h3]
  · intro csv_path model_path rows e h1 h2 h3 h4
    unfold load_model
    rw [if_neg hguard, h1]
    dsimp only
    rw [h2]
    dsimp only
    rw [h3]
    dsimp only
    rw [h4]

/-- C2 witness: the amended theorem applied to a concrete failing session
construction, exhibiting the mixed post-state. -/
theorem c2_witness :
    ((⟨["old"], [0], [1], [2], some 7, some 224, some "r0"⟩ :
        PredictorState Nat).last_loaded_repo ≠ some "r1") ∧
    load_model
        (⟨fun _ => .ok "csv", fun _ => .ok "model", fun _ => .ok [("new", 0)],
          fun _ => .error .sessionError⟩ : Oracles Nat)
        (⟨["old"], [0], [1], [2], some 7, some 224, some "r0"⟩ : PredictorState Nat)
        "r1" =
      ({ (⟨["old"], [0], [1], [2], some 7, some 224, some "r0"⟩ : PredictorState Nat) with
         tag_names := (load_labels [("new", 0)]).1
         rating_indexes := (load_labels [("new", 0)]).2.1
         general_indexes := (load_labels [("new", 0)]).2.2.1
         character_indexes := (load_labels [("new", 0)]).2.2.2 }, some PyErr.sessionError) :=
  ⟨by decide,
    (c2_amended_partial_update Nat
      ⟨fun _ => .ok "csv", fun _ => .ok "model", fun _ => .ok [("new", 0)],
        fun _ => .error .sessionError⟩
      ⟨["old"], [0], [1], [2], some 7, some 224, some "r0"⟩ "r1"
      (by decide)).2.2.2 "csv" "model" [("new", 0)] PyErr.sessionError rfl rfl rfl rfl⟩

/-- C3: for every probability vector of length at least 2, `mcut_threshold`
returns the midpoint of `sorted[k]` and `sorted[k+1]` where `sorted` is the
vector sorted descending and `k` is the first index maximising the
consecutive difference; on `[0.9, 0.6, 0.5, 0.1]` it returns `0.3` and the
strict-greater rule then accepts exactly `{0.9, 0.6, 0.5}`. -/
theorem c3_mcut_threshold :
    (∀ probs : List ℚ, 2 ≤ probs.length →
      (sortDesc probs).Sorted (fun a b : ℚ => b ≤ a) ∧ (sortDesc probs).Perm probs ∧
      ∃ k, isFirstArgmax (mcutDifs probs) k ∧ k + 1 < (sortDesc probs).length ∧
        mcut_threshold probs =
          some (((sortDesc probs).getD k 0 + (sortDesc probs).getD (k + 1) 0) / 2)) ∧
    mcut_threshold [9/10, 6/10, 5/10, 1/10] = some (3/10) ∧
    acceptedByThresh [("a", 9/10), ("b", 6/10), ("c", 5/10), ("d", 1/10)] (3/10) =
      [("a", 9/10), ("b", 6/10), ("c", 5/10)] := by
  refine ⟨?_, by with_unfolding_all decide, by with_unfolding_all decide⟩
  intro probs h
  exact ⟨sortDesc_sorted probs, sortDesc_perm probs, mcut_threshold_spec probs h⟩

/-- C3 witness: the universal part applied at the spec's example vector. -/
theorem c3_witness :
    2 ≤ ([9/10, 6/10, 5/10, 1/10] : List ℚ).length ∧
    ((sortDesc [9/10, 6/10, 5/10, 1/10]).Sorted (fun a b : ℚ => b ≤ a) ∧
      (sortDesc [9/10, 6/10, 5/10, 1/10]).Perm [9/10, 6/10, 5/10, 1/10] ∧
      ∃ k, isFirstArgmax (mcutDifs [9/10, 6/10, 5/10, 1/10]) k ∧
        k + 1 < (sortDesc [9/10, 6/10, 5/10, 1/10]).length ∧
        mcut_threshold [9/10, 6/10, 5/10, 1/10] =
          some (((sortDesc [9/10, 6/10, 5/10, 1/10]).getD k 0 +
            (sortDesc [9/10, 6/10, 5/10, 1/10]).getD (k + 1) 0) / 2)) :=
  ⟨by decide, c3_mcut_threshold.1 [9/10, 6/10, 5/10, 1/10] (by decide)⟩

/-- C4: under fixed thresholding the accepted set of a group is exactly the
pairs whose confidence is strictly greater than the threshold — equality is
rejected — for both the general and the character group; boundary instances
0.35 vs threshold 0.35 (rejected) and 0.350001 (accepted). -/
theorem c4_fixed_threshold_strict :
    (∀ (names : List (String × ℚ)) (t : ℚ) (x : String × ℚ),
        x ∈ acceptedByThresh names t ↔ x ∈ names ∧ t < x.2) ∧
    (∀ (tag_names : List String) (preds : List ℚ) (ri gi ci : List Nat) (gt ct : ℚ),
        (∀ i ∈ ri ++ gi ++ ci, i < (List.zip tag_names preds).length) →
        predict_post tag_names ri gi ci preds gt false ct false =
          .ok (format_general (dictOfList (acceptedByThresh (groupSlice tag_names preds gi) gt)),
               dictOfList (groupSlice tag_names preds ri),
               dictOfList (acceptedByThresh (groupSlice tag_names preds ci) ct),
               dictOfList (acceptedByThresh (groupSlice tag_names preds gi) gt))) ∧
    predict_post ["a"] [] [0] [] [35/100] (35/100) false 0 false = .ok ("", [], [], []) ∧
    predict_post ["a"] [] [0] [] [350001/1000000] (35/100) false 0 false =
      .ok ("a", [], [], [("a", 350001/1000000)]) := by
  refine ⟨?_, predict_post_fixed, ?_, ?_⟩
  · intro names t x
    simp [acceptedByThresh, List.mem_filter]
  · rw [predict_post_fixed ["a"] [35/100] [] [0] [] (35/100) 0 (by decide)]
    have hacc : acceptedByThresh (groupSlice ["a"] [(35 : ℚ)/100] [0]) (35/100) = [] := by
      show List.filter _ [("a", (35 : ℚ)/100)] = []
      simp [List.filter_cons]
    rw [hacc]
    rfl
  · rw [predict_post_fixed ["a"] [350001/1000000] [] [0] [] (35/100) 0 (by decide)]
    have hacc : acceptedByThresh (groupSlice ["a"] [(350001 : ℚ)/1000000] [0]) (35/100) =
        [("a", 350001/1000000)] := by
      show List.filter _ [("a", (350001 : ℚ)/1000000)] = _
      rw [List.filter_cons]
      rw [if_pos (by norm_num)]
      rfl
    rw [hacc]
    rfl

/-- C4 witness: the structural part applied at a concrete input. -/
theorem c4_witness :
    (∀ i ∈ ([0] ++ [1] ++ [] : List Nat),
        i < (List.zip ["a", "b"] [(2 : ℚ), 1]).length) ∧
    predict_post ["a", "b"] [0] [1] [] [(2 : ℚ), 1] (1/2) false (1/2) false =
      .ok (format_general (dictOfList (acceptedByThresh (groupSlice ["a", "b"] [(2 : ℚ), 1] [1]) (1/2))),
           dictOfList (groupSlice ["a", "b"] [(2 : ℚ), 1] [0]),
           dictOfList (acceptedByThresh (groupSlice ["a", "b"] [(2 : ℚ), 1] []) (1/2)),
           dictOfList (acceptedByThresh (groupSlice ["a", "b"] [(2 : ℚ), 1] [1]) (1/2))) :=
  ⟨by decide,
    c4_fixed_threshold_strict.2.1 ["a", "b"] [(2 : ℚ), 1] [0] [1] [] (1/2) (1/2) (by decide)⟩

/-- C5: with character MCut enabled the effective character threshold is
`max(0.15, mcut_threshold(character probs))`, while the general MCut
threshold is used as computed, with no floor; a computed 0.05 becomes 0.15
for the character group only. -/
theorem c5_character_mcut_floor :
    (∀ (tag_names : List String) (preds : List ℚ) (ri gi ci : List Nat) (gt ct tc : ℚ),
        (∀ i ∈ ri ++ gi ++ ci, i < (List.zip tag_names preds).length) →
        mcut_threshold ((groupSlice tag_names preds ci).map Prod.snd) = some tc →
        predict_post tag_names ri gi ci preds gt false ct true =
          .ok (format_general (dictOfList (acceptedByThresh (groupSlice tag_names preds gi) gt)),
               dictOfList (groupSlice tag_names preds ri),
               dictOfList (acceptedByThresh (groupSlice tag_names preds ci) (max (3 / 20) tc)),
               dictOfList (acceptedByThresh (groupSlice tag_names preds gi) gt))) ∧
    (∀ (tag_names : List String) (preds : List ℚ) (ri gi ci : List Nat) (gt ct tg : ℚ),
        (∀ i ∈ ri ++ gi ++ ci, i < (List.zip tag_names preds).length) →
        mcut_threshold ((groupSlice tag_names preds gi).map Prod.snd) = some tg →
        predict_post tag_names ri gi ci preds gt true ct false =
          .ok (format_general (dictOfList (acceptedByThresh (groupSlice tag_names preds gi) tg)),
               dictOfList (groupSlice tag_names preds ri),
               dictOfList (acceptedByThresh (groupSlice tag_names preds ci) ct),
               dictOfList (acceptedByThresh (groupSlice tag_names preds gi) tg))) ∧
    max (3/20 : ℚ) (1/20) = 3/20 ∧
    predict_post ["g1", "g2", "c1", "c2"] [] [0, 1] [2, 3] [1/10, 0, 1/10, 0] 0 true 0 true =
      .ok ("g1", [], [], [("g1", 1/10)]) := by
  exact ⟨predict_post_char_mcut, predict_post_general_mcut,
    by with_unfolding_all decide, by with_unfolding_all decide⟩

/-- C5 witness: the floored-character part applied at a group whose MCut
threshold computes to 1/20 and is clamped to 3/20. -/
theorem c5_witness :
    (∀ i ∈ ([] ++ [] ++ [0, 1] : List Nat),
        i < (List.zip ["c1", "c2"] [(1 : ℚ)/10, 0]).length) ∧
    mcut_threshold ((groupSlice ["c1", "c2"] [(1 : ℚ)/10, 0] [0, 1]).map Prod.snd) =
      some (1/20) ∧
    predict_post ["c1", "c2"] [] [] [0, 1] [(1 : ℚ)/10, 0] 0 false 0 true =
      .ok (format_general (dictOfList (acceptedByThresh (groupSlice ["c1", "c2"] [(1 : ℚ)/10, 0] []) 0)),
           dictOfList (groupSlice ["c1", "c2"] [(1 : ℚ)/10, 0] []),
           dictOfList (acceptedByThresh (groupSlice ["c1", "c2"] [(1 : ℚ)/10, 0] [0, 1]) (max (3 / 20) (1/20))),
           dictOfList (acceptedByThresh (groupSlice ["c1", "c2"] [(1 : ℚ)/10, 0] []) 0)) :=
  ⟨by decide, by with_unfolding_all decide,
    c5_character_mcut_floor.1 ["c1", "c2"] [(1 : ℚ)/10, 0] [] [] [0, 1] 0 0 (1/20)
      (by decide) (by with_unfolding_all decide)⟩

/-- C6: for every input image `prepare_image` yields a tensor of shape
exactly `[1, S, S, 3]`; when `max(width, height) = S` the resampling kernel
is never consulted (no resampling); padding is white with integer-floor
centred offsets and preserves every source pixel (no cropping); and in the
no-resize case each tensor entry is the raw blue-green-red triple of the
padded pixel (channel order reversed, raw 0-255 values, no normalisation). -/
theorem c6_prepare_image :
    (∀ (S : Nat) (kernel : ImgRGB → Nat → Nat → Nat → RGB) (image : ImgRGBA),
        hasShape4 (prepare_image S kernel image) 1 S S 3) ∧
    (∀ (S : Nat) (k1 k2 : ImgRGB → Nat → Nat → Nat → RGB) (image : ImgRGBA),
        max image.width image.height = S →
        prepare_image S k1 image = prepare_image S k2 image) ∧
    (∀ (img : ImgRGB) (x y : Nat), x < img.width → y < img.height →
        (padToSquare img).pix ((max img.width img.height - img.width) / 2 + x)
          ((max img.width img.height - img.height) / 2 + y) = img.pix x y) ∧
    (∀ (img : ImgRGB) (x y : Nat),
        (x < (max img.width img.height - img.width) / 2 ∨
         (max img.width img.height - img.width) / 2 + img.width ≤ x ∨
         y < (max img.width img.height - img.height) / 2 ∨
         (max img.width img.height - img.height) / 2 + img.height ≤ y) →
        (padToSquare img).pix x y = whiteRGB) ∧
    (∀ (S : Nat) (kernel : ImgRGB → Nat → Nat → Nat → RGB) (image : ImgRGBA),
        max image.width image.height = S → ∀ x y : Nat, x < S → y < S →
        (((prepare_image S kernel image).getD 0 []).getD y []).getD x [] =
          [((padToSquare (flattenOverWhite image)).pix x y).b,
           ((padToSquare (flattenOverWhite image)).pix x y).g,
           ((padToSquare (flattenOverWhite image)).pix x y).r]) :=
  ⟨prepare_image_shape, prepare_image_kernel_indep, padToSquare_pix_in_window,
   padToSquare_pix_outside, prepare_image_entry⟩

/-- C6 witness: kernel independence applied at an exact-size 1x1 image with
two different resampling kernels. -/
theorem c6_witness :
    max (1 : Nat) 1 = 1 ∧
    prepare_image 1 (fun _ _ _ _ => whiteRGB)
        (⟨1, 1, fun _ _ => ⟨10, 20, 30, 255⟩⟩ : ImgRGBA) =
      prepare_image 1 (fun _ _ _ _ => (⟨0, 0, 0⟩ : RGB))
        (⟨1, 1, fun _ _ => ⟨10, 20, 30, 255⟩⟩ : ImgRGBA) :=
  ⟨rfl, c6_prepare_image.2.1 1 (fun _ _ _ _ => whiteRGB) (fun _ _ _ _ => ⟨0, 0, 0⟩)
    ⟨1, 1, fun _ _ => ⟨10, 20, 30, 255⟩⟩ rfl⟩

/-- C7: the formatted string is the accepted general pairs stably sorted by
descending confidence (ties keep the pre-sort order: filtering by any
confidence value is order-preserving), names joined with `", "`, and exactly
the parenthesis characters escaped with a preceding backslash; the spec's
example formats as the string cat\(ears\), smile. -/
theorem c7_formatter :
    (∀ m : List (String × ℚ),
        format_general m =
          escapeParens (String.intercalate ", " ((sortByConfDesc m).map Prod.fst)) ∧
        (sortByConfDesc m).Perm m ∧
        (sortByConfDesc m).Sorted (fun a b : String × ℚ => b.2 ≤ a.2) ∧
        ∀ c : ℚ, (sortByConfDesc m).filter (fun p => p.2 == c) =
          m.filter (fun p => p.2 == c)) ∧
    (∀ s : String,
        escapeParens s =
          String.mk (s.data.flatMap
            (fun c => if c = '(' ∨ c = ')' then ['\\', c] else [c]))) ∧
    format_general [("cat(ears)", 9/10), ("smile", 8/10)] = "cat\\(ears\\), smile" ∧
    predict_post ["cat(ears)", "smile"] [] [0, 1] [] [9/10, 8/10] 0 false 0 false =
      .ok ("cat\\(ears\\), smile", [], [], [("cat(ears)", 9/10), ("smile", 8/10)]) := by
  refine ⟨?_, escapeParens_eq, by with_unfolding_all decide, by with_unfolding_all decide⟩
  intro m
  exact ⟨rfl, sortByConfDesc_perm m, sortByConfDesc_sorted m, filter_sortByConfDesc m⟩

/-- C8: `load_model` is a no-op on the cached identifier — the second of two
identical loads never consults the collaborators — and a successful load of
a different identifier replaces catalog, handle, target size and identifier
as one unit, read off the fetched artifacts. -/
theorem c8_cache_idempotent :
    (∀ (M : Type) (o : Oracles M) (s : PredictorState M) (repo : String),
        s.last_loaded_repo = some repo → load_model o s repo = (s, none)) ∧
    (∀ (M : Type) (o o' : Oracles M) (s s' : PredictorState M) (repo : String),
        load_model o s repo = (s', none) → load_model o' s' repo = (s', none)) ∧
    (∀ (M : Type) (o : Oracles M) (s s' : PredictorState M) (repo : String),
        s.last_loaded_repo ≠ some repo → load_model o s repo = (s', none) →
        ∃ csv_path model_path rows m height,
          o.downloadCsv repo = .ok csv_path ∧ o.downloadModelFile repo = .ok model_path ∧
          o.readCsv csv_path = .ok rows ∧ o.createSession model_path = .ok (m, height) ∧
          s' = { tag_names := (load_labels rows).1
                 rating_indexes := (load_labels rows).2.1
                 general_indexes := (load_labels rows).2.2.1
                 character_indexes := (load_labels rows).2.2.2
                 model := some m
                 model_target_size := some height
                 last_loaded_repo := some repo }) := by
  have h1 : ∀ (M : Type) (o : Oracles M) (s : PredictorState M) (repo : String),
      s.last_loaded_repo = some repo → load_model o s repo = (s, none) := by
    intro M o s repo h
    unfold load_model
    rw [if_pos h.symm]
  refine ⟨h1, ?_, ?_⟩
  · intro M o o' s s' repo h
    exact h1 M o' s' repo (load_model_ok_last o s repo s' h)
  · intro M o s s' repo hne h
    unfold load_model at h
    rw [if_neg (fun he => hne he.symm)] at h
    cases hc : o.downloadCsv repo with
    | error e =>
      rw [hc] at h
      dsimp only at h
      exact absurd (congrArg Prod.snd h) (by simp)
    | ok csv_path =>
      rw [hc] at h
      dsimp only at h
      cases hm : o.downloadModelFile repo with
      | error e =>
        rw [hm] at h
        dsimp only at h
        exact absurd (congrArg Prod.snd h) (by simp)
      | ok model_path =>
        rw [hm] at h
        dsimp only at h
        cases hr : o.readCsv csv_path with
        | error e =>
          rw [hr] at h
          dsimp only at h
          exact absurd (congrArg Prod.snd h) (by simp)
        | ok rows =>
          rw [hr] at h
          dsimp only at h
          cases hcs : o.createSession model_path with
          | error e =>
            rw [hcs] at h
            dsimp only at h
            exact absurd (congrArg Prod.snd h) (by simp)
          | ok mh =>
            obtain ⟨m, height⟩ := mh
            rw [hcs] at h
            dsimp only at h
            refine ⟨csv_path, model_path, rows, m, height, rfl, rfl, hr, hcs, ?_⟩
            have hfst := congrArg Prod.fst h
            dsimp only at hfst
            exact hfst.symm

/-- C8 witness: the no-op branch applied to a state already holding the
requested identifier, with collaborators that would fail if consulted. -/
theorem c8_witness :
    ((⟨[], [], [], [], none, none, some "r"⟩ : PredictorState Nat).last_loaded_repo =
      some "r") ∧
    load_model
        (⟨fun _ => .error .fetchError, fun _ => .error .fetchError,
          fun _ => .error .parseError, fun _ => .error .sessionError⟩ : Oracles Nat)
        (⟨[], [], [], [], none, none, some "r"⟩ : PredictorState Nat) "r" =
      ((⟨[], [], [], [], none, none, some "r"⟩ : PredictorState Nat), none) :=
  ⟨rfl, c8_cache_idempotent.1 Nat
    ⟨fun _ => .error .fetchError, fun _ => .error .fetchError,
      fun _ => .error .parseError, fun _ => .error .sessionError⟩
    ⟨[], [], [], [], none, none, some "r"⟩ "r" rfl⟩

/-- C9: `mcut_threshold` is undefined on vectors with fewer than two entries
(the difference array is empty, numpy `argmax` raises `ValueError`), so
`predict` with MCut enabled for a group with fewer than two members fails
with an error instead of returning a result — shown for both the general
and the character group. -/
theorem c9_mcut_degenerate :
    (∀ probs : List ℚ, probs.length < 2 → mcut_threshold probs = none) ∧
    (∀ (tag_names : List String) (preds : List ℚ) (ri gi ci : List Nat)
        (gt ct : ℚ) (cm : Bool),
        (∀ i ∈ ri ++ gi, i < (List.zip tag_names preds).length) → gi.length < 2 →
        predict_post tag_names ri gi ci preds gt true ct cm = .error .valueError) ∧
    (∀ (tag_names : List String) (preds : List ℚ) (ri gi ci : List Nat) (gt ct : ℚ),
        (∀ i ∈ ri ++ gi ++ ci, i < (List.zip tag_names preds).length) → ci.length < 2 →
        predict_post tag_names ri gi ci preds gt false ct true = .error .valueError) := by
  refine ⟨mcut_threshold_short, ?_, predict_post_char_mcut_err⟩
  intro tag_names preds ri gi ci gt ct cm h hlen
  exact predict_post_general_mcut_err tag_names preds ri gi ci gt ct h hlen cm

/-- C9 witness: a single-member general group under MCut raises. -/
theorem c9_witness :
    (∀ i ∈ ([] ++ [0] : List Nat), i < (List.zip ["a"] [(1 : ℚ)/2]).length) ∧
    ([0] : List Nat).length < 2 ∧
    predict_post ["a"] [] [0] [] [(1 : ℚ)/2] 0 true 0 false = .error .valueError :=
  ⟨by decide, by decide,
    c9_mcut_degenerate.2.1 ["a"] [(1 : ℚ)/2] [] [0] [] 0 0 false (by decide) (by decide)⟩

/-- C10: the catalog itself never deduplicates (one tag name per row, so the
name list is as long as the table), but the per-group result dicts keep, for
each duplicated normalized name, only the last occurrence's confidence
(Python `dict` construction overwrites; the retained value is the first
match in the reversed pair list), so a returned map can have fewer entries
than the group's index list. -/
theorem c10_dict_last_wins :
    (∀ rows : List (String × Int), (load_labels rows).1.length = rows.length) ∧
    (∀ (l : List (String × ℚ)) (k : String),
        List.lookup k (dictOfList l) =
          (l.reverse.find? (fun p => p.1 == k)).map Prod.snd) ∧
    (∀ l : List (String × ℚ), (dictOfList l).length ≤ l.length) ∧
    load_labels [("a_b", 0), ("a b", 0)] = (["a b", "a b"], [], [0, 1], []) ∧
    dictOfList [("a b", 9/10), ("a b", 8/10)] = [("a b", 8/10)] ∧
    predict_post ["a b", "a b"] [] [0, 1] [] [9/10, 8/10] 0 false 0 false =
      .ok ("a b", [], [], [("a b", 8/10)]) := by
  refine ⟨?_, lookup_dictOfList, length_dictOfList, by with_unfolding_all decide,
    by with_unfolding_all decide, by with_unfolding_all decide⟩
  intro rows
  simp [load_labels]

end Tagger

example : Tagger.mcut_threshold [9/10, 6/10, 5/10, 1/10] = some (3/10) := by
  with_unfolding_all decide

example : Tagger.acceptedByThresh
    [("a", 9/10), ("b", 6/10), ("c", 5/10), ("d", 1/10)] (3/10)
    = [("a", 9/10), ("b", 6/10), ("c", 5/10)] := by with_unfolding_all decide

example : Tagger.load_labels [("a_b", 0), ("^_^", 9)]
    = (["a b", "^_^"], [1], [0], []) := by with_unfolding_all decide

example : Tagger.format_general [("cat(ears)", 9/10), ("smile", 8/10)]
    = "cat\\(ears\\), smile" := by with_unfolding_all decide

example : Tagger.predict_post ["r", "cat(ears)", "smile"] [0] [1, 2] []
    [1/2, 9/10, 8/10] (35/100) false (85/100) false
    = .ok ("cat\\(ears\\), smile", [("r", 1/2)], [],
        [("cat(ears)", 9/10), ("smile", 8/10)]) := by with_unfolding_all decide
